import Mathlib

/-!
Verification of the streaming chat message rendering pipeline of the
ens-rag repository (frontend/src/components/chat/MessageList.tsx and
website/components/chat/MessageList.tsx): markdown sanitization,
Prism-based syntax highlighting, copy-button augmentation, the
per-message formatted-HTML cache, and the auto-scroll policy.

The DOM fragments the components build and mutate are modelled as a
tree of element and text nodes; each TypeScript function of the
components is translated into a Lean function over that tree or over
the message list state.
-/

set_option maxHeartbeats 1600000
set_option maxRecDepth 16384

namespace EnsRag

/-- A DOM node: either a text node or an element with a tag name, an
attribute list and child nodes.  This models the HTML fragments the
MessageList components build and mutate (the marked output parsed into
a temporary div, Prism token spans, copy-button elements). -/
inductive Node where
  | text (s : String)
  | elem (tag : String) (attrs : List (String × String)) (children : List Node)

/-- Substring test, modelling the CSS attribute selector [class*=pat]
and the regex search for a literal fragment used by the component. -/
def strContains (s pat : String) : Bool :=
  decide (pat.toList <:+: s.toList)

/-- Attribute lookup on an attribute list (Element.getAttribute). -/
def findAttr (a : List (String × String)) (k : String) : Option String :=
  (a.find? (fun p => p.1 == k)).map Prod.snd

/-- The class attribute of an attribute list, empty when absent
(Element.className for our purposes). -/
def classOfAttrs (a : List (String × String)) : String :=
  (findAttr a "class").getD ""

/-- Element.setAttribute on an attribute list: replaces the value when
the key is present, otherwise appends the pair. -/
def setAttrList (a : List (String × String)) (k v : String) : List (String × String) :=
  if a.any (fun p => p.1 == k) then
    a.map (fun p => if p.1 == k then (k, v) else p)
  else a ++ [(k, v)]

namespace Node

/-- Element.getAttribute; text nodes have no attributes. -/
def getAttr : Node → String → Option String
  | .text _, _ => none
  | .elem _ a _, k => findAttr a k

/-- Element.className (empty for text nodes). -/
def className : Node → String
  | .text _ => ""
  | .elem _ a _ => classOfAttrs a

/-- Element.setAttribute (no-op on text nodes). -/
def setAttr : Node → String → String → Node
  | .text s, _, _ => .text s
  | .elem t a cs, k, v => .elem t (setAttrList a k v) cs

/-- Element.appendChild (no-op on text nodes). -/
def appendChild : Node → Node → Node
  | .text s, _ => .text s
  | .elem t a cs, c => .elem t a (cs ++ [c])

end Node

mutual
/-- Node.textContent: the concatenation of all descendant text. -/
def textContent : Node → String
  | .text s => s
  | .elem _ _ cs => textContentList cs

/-- textContent of a list of sibling nodes, in order. -/
def textContentList : List Node → String
  | [] => ""
  | n :: ns => textContent n ++ textContentList ns
end

mutual
/-- Every node of a tree (the node itself and all descendants)
satisfies p. -/
def allNodes (p : Node → Bool) : Node → Bool
  | .text s => p (.text s)
  | .elem t a cs => p (.elem t a cs) && allNodesList p cs

/-- allNodes over a list of sibling trees. -/
def allNodesList (p : Node → Bool) : List Node → Bool
  | [] => true
  | n :: ns => allNodes p n && allNodesList p ns
end

mutual
/-- Some node of a tree satisfies p (a querySelector search succeeds). -/
def anyNode (p : Node → Bool) : Node → Bool
  | .text s => p (.text s)
  | .elem t a cs => p (.elem t a cs) || anyNodeList p cs

/-- anyNode over a list of sibling trees. -/
def anyNodeList (p : Node → Bool) : List Node → Bool
  | [] => false
  | n :: ns => anyNode p n || anyNodeList p ns
end

mutual
/-- Bottom-up document transformation: recursively rewrite the
children, then apply f to every element matched by sel.  This models
the querySelectorAll + forEach mutation pattern of the components for
selectors that inspect only an element tag and attributes. -/
def mapSelected (sel : Node → Bool) (f : Node → Node) : Node → Node
  | .text s => .text s
  | .elem t a cs =>
    let n := Node.elem t a (mapSelectedList sel f cs)
    if sel n then f n else n

/-- mapSelected over a list of sibling trees. -/
def mapSelectedList (sel : Node → Bool) (f : Node → Node) : List Node → List Node
  | [] => []
  | n :: ns => mapSelected sel f n :: mapSelectedList sel f ns
end

/-! ## Messages, the formatted-HTML cache and the renderer
Model of the Message values delivered by the chat transport and of the
processMessages effect of frontend/src/components/chat/MessageList.tsx
(lines 33-75): only assistant messages are formatted; a formatting
error for one message falls back to that message raw content. -/

/-- A chat message as delivered by the transport adapter:
{ id, role, content }. -/
structure Msg where
  id : String
  role : String
  content : String
deriving DecidableEq

/-- The body of the for-loop of processMessages for one assistant
message: the value stored in the new formatted-messages record.  The
awaited formatAndHighlightMessage call is modelled as a fallible
function fmt; the try/catch block maps an error to the raw message
content (the fallback used only for the message that failed). -/
def formatEntry (fmt : String → Except String String) (m : Msg) : String :=
  match fmt m.content with
  | .ok h => h
  | .error _ => m.content

/-- processMessages: builds the new formatted-messages record by
walking the message list; only messages whose role is assistant get an
entry, keyed by the message id. -/
def processMessages (fmt : String → Except String String) : List Msg → List (String × String)
  | [] => []
  | m :: ms =>
    if m.role == "assistant" then
      (m.id, formatEntry fmt m) :: processMessages fmt ms
    else
      processMessages fmt ms

/-- Record lookup: formattedMessages[id]. -/
def lookupCache (cache : List (String × String)) (id : String) : Option String :=
  (cache.find? (fun p => p.1 == id)).map Prod.snd

/-- What the component injects for one message. -/
inductive Rendered where
  | html (s : String)
  | plain (s : String)
deriving DecidableEq

/-- The dangerouslySetInnerHTML expression of the render (line 356):
formattedMessages[message.id] || message.content.  A missing entry
(undefined) and the empty string are both falsy in JS, so both fall
back to the raw content. -/
def renderAssistantHTML (cache : List (String × String)) (m : Msg) : String :=
  match lookupCache cache m.id with
  | some s => if s == "" then m.content else s
  | none => m.content

/-- The per-message branch of the render (lines 313-361): assistant
messages are injected as HTML from the cache (or raw content as
fallback); every other role is rendered directly as plain text. -/
def renderMessage (cache : List (String × String)) (m : Msg) : Rendered :=
  if m.role == "assistant" then .html (renderAssistantHTML cache m)
  else .plain m.content

/-! ## Scroll policy
Model of the handleScroll listener (lines 82-87) and of the scroll
effect (lines 94-116). -/

/-- handleScroll: the viewport counts as at the bottom when within
100px of the bottom (scrollHeight - scrollTop - clientHeight < 100). -/
def isAtBottom (scrollTop scrollHeight clientHeight : Int) : Bool :=
  scrollHeight - scrollTop - clientHeight < 100

/-- The last message role recorded by the effect
(lastMessageRole.current update, lines 106-107). -/
def lastRoleOf (msgs : List Msg) : Option String :=
  msgs.getLast?.map Msg.role

/-- isNewUserMessage (lines 96-99): the list is nonempty, the last
message has role user, and that role differs from the last role
recorded at the previous run of the effect. -/
def isNewUserMessage (msgs : List Msg) (lastRole : Option String) : Bool :=
  match msgs.getLast? with
  | some m => m.role == "user" && lastRole != some m.role
  | none => false

/-- The scroll effect (lines 94-108): scrollIntoView fires exactly
when shouldAutoScroll or isNewUserMessage holds; the first component
says whether the viewport is scrolled to the bottom, the second is the
updated lastMessageRole ref. -/
def scrollEffect (shouldAutoScroll : Bool) (msgs : List Msg) (lastRole : Option String) :
    Bool × Option String :=
  (shouldAutoScroll || isNewUserMessage msgs lastRole, lastRoleOf msgs)

/-- Modelled from the spec: the newest message is a freshly appended
user message, i.e. the current list extends the list of the previous
render by exactly one message whose role is user.  This is the
spec-side reading of the scroll trigger, to be compared with the
isNewUserMessage check of the code. -/
def freshlyAppendedUserMessage (prev cur : List Msg) : Bool :=
  match cur.getLast? with
  | some m => decide (cur.dropLast = prev) && m.role == "user"
  | none => false

/-! ## Copy-button click handler
Model of the click listener attached to each copy button
(frontend lines 161-191): read the code text, write it to the
clipboard, and on success swap the copy icon for the success icon
(reverted by a timer); on failure log and leave the icons as they
are.  The clipboard write is a parameter since it may reject. -/

/-- Visibility of the two icon spans of a copy button: whether each
carries the hidden class. -/
structure IconState where
  copyHidden : Bool
  successHidden : Bool
deriving DecidableEq

/-- Outcome of one activation of the copy-button click handler. -/
structure ClickResult where
  icons : IconState
  logs : List String
  timerSet : Bool
deriving DecidableEq

/-- The trim of JS String.prototype.trim: strip leading and trailing
whitespace. -/
def jsTrim (s : String) : String :=
  String.mk
    (((s.toList.dropWhile Char.isWhitespace).reverse.dropWhile
        Char.isWhitespace).reverse)

/-- The click handler body: codeToCopy is the trimmed text content of
the code element; an empty extraction logs and returns; otherwise the
clipboard write is awaited inside try/catch - on success the success
icon is shown and a revert timer armed, on rejection the error is
logged and the icon state is left unchanged.  The handler is a total
function: no exception escapes it. -/
def clickHandler (clipboardWrite : String → Except String Unit)
    (codeText : String) (st : IconState) : ClickResult :=
  let codeToCopy := jsTrim codeText
  if codeToCopy == "" then
    { icons := st, logs := ["Failed to extract code to copy"], timerSet := false }
  else
    match clipboardWrite codeToCopy with
    | .ok _ =>
      { icons := { copyHidden := true, successHidden := false },
        logs := [], timerSet := true }
    | .error e =>
      { icons := st, logs := ["Failed to copy code: " ++ e], timerSet := false }

/-! ## Sanitizer
Model of the DOMPurify.sanitize call of formatAndHighlightMessage
(frontend lines 208-231).  The DOMPurify library itself is not part of
this repository; its pass is modelled from the spec and from the
library documented contract: elements whose tag is on the allowlist
are kept with their allowlisted attributes, elements off the allowlist
are dropped while their (sanitized) children are kept in place
(KEEP_CONTENT default), except for a fixed set of tags whose contents
are dropped with them; nothing is ever escaped into text. -/

/-- The fixed tag allowlist: the default DOMPurify tag set restricted
to what the markdown converter can emit, extended by the ADD_TAGS of
the source call site (button, span, svg, path, rect, polyline). -/
def allowedTags : List String :=
  ["a", "b", "blockquote", "br", "code", "del", "div", "em", "h1", "h2",
   "h3", "h4", "h5", "h6", "hr", "i", "img", "ins", "li", "ol", "p",
   "pre", "s", "strong", "sub", "sup", "table", "tbody", "td", "tfoot",
   "th", "thead", "tr", "u", "ul",
   "button", "span", "svg", "path", "rect", "polyline"]

/-- The fixed attribute allowlist: common default attributes plus the
ADD_ATTR list of the source call site (class, the two marker data
attributes, target, and the SVG geometry attributes). -/
def allowedAttrs : List String :=
  ["alt", "href", "rel", "src", "style", "title",
   "class", "data-prism-highlighted", "data-copy-added", "target",
   "width", "height", "viewBox", "fill", "stroke", "stroke-width",
   "stroke-linecap", "stroke-linejoin", "points", "x", "y", "rx", "ry", "d"]

/-- Tags whose contents are discarded together with the tag when the
tag is not allowed (the DOMPurify forbid-contents set). -/
def forbidContents : List String :=
  ["audio", "head", "iframe", "math", "noembed", "noframes",
   "noscript", "plaintext", "script", "style", "template", "title",
   "video", "xmp"]

mutual
/-- Sanitize one node: an allowed element keeps its allowlisted
attributes and its sanitized children; a forbidden-contents element
disappears with its children; any other element is dropped and
replaced in place by its sanitized children. -/
def sanitizeNode : Node → List Node
  | .text s => [.text s]
  | .elem t a cs =>
    if allowedTags.contains t then
      [.elem t (a.filter (fun p => allowedAttrs.contains p.1)) (sanitizeList cs)]
    else if forbidContents.contains t then []
    else sanitizeList cs

/-- Sanitize a list of sibling nodes in order. -/
def sanitizeList : List Node → List Node
  | [] => []
  | n :: ns => sanitizeNode n ++ sanitizeList ns
end

/-- Tag and attribute keys of one element are all on the allowlists
(text nodes trivially pass). -/
def nodeAllowed : Node → Bool
  | .text _ => true
  | .elem t a _ => allowedTags.contains t && a.all (fun p => allowedAttrs.contains p.1)

mutual
/-- The strings of all text nodes of a tree, in document order. -/
def textNodes : Node → List String
  | .text s => [s]
  | .elem _ _ cs => textNodesList cs

/-- textNodes over a list of sibling trees. -/
def textNodesList : List Node → List String
  | [] => []
  | n :: ns => textNodes n ++ textNodesList ns
end

/-! ## Syntax highlighter
Model of the Prism calls of formatAndHighlightMessage (frontend lines
239-281).  The Prism library is not part of this repository; its
tokenizer is modelled from the spec contract of section 4.2: a loaded
grammar wraps tokens of the code text in styling spans, the
concatenated text of the output equals the input text, and no marker
attribute of any kind is produced. -/

/-- A word character in the sense of the regex escape w. -/
def isWordChar (c : Char) : Bool :=
  c.isAlphanum || c == '_'

/-- Modelled from the spec: the grammar-based tokenizer of the Prism
library (absent from this repository).  Word characters are wrapped in
token spans, other characters stay as plain text; the concatenation of
the output text is exactly the input. -/
def tokenizeChars : List Char → List Node
  | [] => []
  | c :: l =>
    (if isWordChar c then
      Node.elem "span" [("class", "token")] [Node.text (String.mk [c])]
    else
      Node.text (String.mk [c])) :: tokenizeChars l

/-- Tokenize a code string into highlight nodes. -/
def prismTokenize (s : String) : List Node :=
  tokenizeChars s.toList

/-- Prism.highlightElement: replaces the children of the element with
the tokenization of its text content.  Stated as a fallible function
because the source wraps the call in try/catch; the model itself
always succeeds. -/
def prismHighlightElement : Node → Except String Node
  | .text s => .ok (.text s)
  | .elem t a cs => .ok (.elem t a (prismTokenize (textContentList cs)))

/-- The search of the regex language-(w+) over a class string: find a
literal language- fragment followed by at least one word character and
return the maximal word-character run after it, backtracking to a
later occurrence otherwise. -/
def extractLangChars : List Char → Option (List Char)
  | [] => none
  | c :: l =>
    if "language-".toList.isPrefixOf (c :: l) then
      let w := ((c :: l).drop 9).takeWhile isWordChar
      if w.isEmpty then extractLangChars l else some w
    else extractLangChars l

/-- The language declared by a class attribute, if any. -/
def extractLang (cls : String) : Option String :=
  (extractLangChars cls.toList).map (fun w => String.mk w)

mutual
/-- The highlight loop of formatAndHighlightMessage (frontend lines
239-281): every code element with a language class sitting below a
pre element (the querySelectorAll pre code selector) is processed -
extract the language from its class; when the grammar is loaded call
Prism.highlightElement inside try/catch (an error leaves the element
unchanged and does not propagate), otherwise skip the element
silently.  hl is the possibly-throwing Prism call; matched elements
are rewritten wholesale, as the forEach over the selector snapshot
does for the non-nested pre and code structure marked emits. -/
def highlightNode (grammars : List String) (hl : Node → Except String Node)
    (inPre : Bool) : Node → Node
  | .text s => .text s
  | .elem t a cs =>
    if inPre && t == "code" && strContains (classOfAttrs a) "language-" then
      match extractLang (classOfAttrs a) with
      | some lang =>
        if grammars.contains lang then
          match hl (.elem t a cs) with
          | .ok n => n
          | .error _ => .elem t a cs
        else .elem t a cs
      | none => .elem t a cs
    else
      .elem t a (highlightList grammars hl (inPre || t == "pre") cs)

/-- highlightNode over a list of sibling trees. -/
def highlightList (grammars : List String) (hl : Node → Except String Node)
    (inPre : Bool) : List Node → List Node
  | [] => []
  | n :: ns =>
    highlightNode grammars hl inPre n :: highlightList grammars hl inPre ns
end

/-! ## Copy-button augmenter
Model of addCopyButtons of frontend/src/components/chat/MessageList.tsx
(lines 119-195) and of the button part of setupCodeBlocks of
website/components/chat/MessageList.tsx (lines 81-142). -/

/-- The copy-icon SVG of the button innerHTML. -/
def copySVG : Node :=
  .elem "svg"
    [("width", "16"), ("height", "16"), ("viewBox", "0 0 24 24"),
     ("fill", "none"), ("stroke", "currentColor"), ("stroke-width", "2"),
     ("stroke-linecap", "round"), ("stroke-linejoin", "round"),
     ("class", "w-4 h-4 text-gray-300")]
    [.elem "rect"
       [("width", "14"), ("height", "14"), ("x", "8"), ("y", "8"),
        ("rx", "2"), ("ry", "2")] [],
     .elem "path"
       [("d", "M4 16c-1.1 0-2-.9-2-2V4c0-1.1.9-2 2-2h10c1.1 0 2 .9 2 2")] []]

/-- The success-icon SVG of the button innerHTML. -/
def successSVG : Node :=
  .elem "svg"
    [("width", "16"), ("height", "16"), ("viewBox", "0 0 24 24"),
     ("fill", "none"), ("stroke", "currentColor"), ("stroke-width", "2"),
     ("stroke-linecap", "round"), ("stroke-linejoin", "round"),
     ("class", "w-4 h-4 text-gray-300")]
    [.elem "polyline" [("points", "20 6 9 17 4 12")] []]

/-- The copy button created by the frontend addCopyButtons (lines
149-159): a button element with the copy icon and the initially hidden
success icon. -/
def copyButtonNode : Node :=
  .elem "button"
    [("class", "z-10 flex items-center justify-center w-auto h-auto p-1 bg-gray-700 rounded-md cursor-pointer code-copy-button hover:bg-gray-600"),
     ("style", "position: absolute; top: 0.5rem; right: 0.5rem;"),
     ("title", "Copy code")]
    [.elem "span" [("class", "copy-icon")] [copySVG],
     .elem "span" [("class", "success-icon hidden")] [successSVG]]

/-- The copy button created by the website setupCodeBlocks (lines
89-96); same structure, different utility classes. -/
def siteCopyButtonNode : Node :=
  .elem "button"
    [("class", "code-copy-button absolute top-2 right-2 p-1 rounded-md bg-gray-700 hover:bg-gray-600 cursor-pointer flex items-center justify-center w-auto h-auto"),
     ("title", "Copy code")]
    [.elem "span" [("class", "copy-icon")] [copySVG],
     .elem "span" [("class", "success-icon hidden")] [successSVG]]

/-- The frontend selector (line 128): a pre element whose class
contains language- and that is not yet marked data-copy-added. -/
def selLangPre : Node → Bool
  | .text _ => false
  | .elem t a _ =>
    t == "pre" && strContains (classOfAttrs a) "language-" &&
      findAttr a "data-copy-added" != some "true"

/-- The inner query of addCopyButtons (line 139): a code element whose
class contains language-. -/
def isLangCode : Node → Bool
  | .text _ => false
  | .elem t a _ => t == "code" && strContains (classOfAttrs a) "language-"

/-- The forEach body of addCopyButtons (lines 135-193): mark the pre
as processed, give it relative positioning, and - only when it holds a
language code element - append the copy button; a pre without one is
marked but skipped. -/
def processPre : Node → Node
  | .text s => .text s
  | .elem t a cs =>
    let a := setAttrList (setAttrList a "data-copy-added" "true") "style" "position: relative"
    if anyNodeList isLangCode cs then .elem t a (cs ++ [copyButtonNode])
    else .elem t a cs

/-- One run of the frontend addCopyButtons over the message container
subtree. -/
def addCopyButtonsPass (ns : List Node) : List Node :=
  mapSelectedList selLangPre processPre ns

/-- The website selector (lines 81-83): any pre element not yet marked
data-copy-added. -/
def selSitePre : Node → Bool
  | .text _ => false
  | .elem t a _ => t == "pre" && findAttr a "data-copy-added" != some "true"

/-- The forEach body of the website setupCodeBlocks (lines 85-142):
mark the pre, give it relative positioning and append the copy button
unconditionally. -/
def siteProcessPre : Node → Node
  | .text s => .text s
  | .elem t a cs =>
    let a := setAttrList (setAttrList a "data-copy-added" "true") "style" "position: relative"
    .elem t a (cs ++ [siteCopyButtonNode])

/-- One run of the button part of the website setupCodeBlocks. -/
def siteAugmentPass (ns : List Node) : List Node :=
  mapSelectedList selSitePre siteProcessPre ns

/-! ## Link pass and full pipeline -/

/-- An anchor element (the querySelectorAll a of lines 284-289). -/
def isAnchor : Node → Bool
  | .text _ => false
  | .elem t _ _ => t == "a"

/-- The per-link mutation (lines 286-288). -/
def setLinkAttrs (n : Node) : Node :=
  (n.setAttr "target" "_blank").setAttr "rel" "noopener noreferrer"

/-- The link pass of formatAndHighlightMessage. -/
def linkPassList (ns : List Node) : List Node :=
  mapSelectedList isAnchor setLinkAttrs ns

/-- Escape text for HTML serialization. -/
def escapeChars : List Char → List Char
  | [] => []
  | c :: l =>
    (if c == '&' then "&amp;".toList
     else if c == '<' then "&lt;".toList
     else if c == '>' then "&gt;".toList
     else if c == '"' then "&quot;".toList
     else [c]) ++ escapeChars l

/-- Escape a string for HTML serialization. -/
def escapeHTML (s : String) : String :=
  String.mk (escapeChars s.toList)

/-- Serialize an attribute list. -/
def attrsHTML (a : List (String × String)) : String :=
  String.join (a.map (fun p => " " ++ p.1 ++ "=\x22" ++ escapeHTML p.2 ++ "\x22"))

mutual
/-- The serialization of one node (Element.outerHTML). -/
def outerHTML : Node → String
  | .text s => escapeHTML s
  | .elem t a cs => "<" ++ t ++ attrsHTML a ++ ">" ++ innerHTML cs ++ "</" ++ t ++ ">"

/-- The serialization of a node list (Element.innerHTML of a holder
whose children they are). -/
def innerHTML : List Node → String
  | [] => ""
  | n :: ns => outerHTML n ++ innerHTML ns
end

/-- formatAndHighlightMessage (frontend lines 198-295) as a tree
transformation: the markdown conversion (the external marked library,
a parameter here), the DOMPurify sanitization, the Prism highlight
pass over fenced code blocks, and the link pass.  The innerHTML
serialization of this tree is the string stored in the cache. -/
def formatPipelineTree (mdParse : String → List Node) (grammars : List String)
    (content : String) : List Node :=
  linkPassList
    (highlightList grammars prismHighlightElement false
      (sanitizeList (mdParse content)))

/-- formatAndHighlightMessage: the cached HTML string. -/
def formatAndHighlightMessage (mdParse : String → List Node)
    (grammars : List String) (content : String) : String :=
  innerHTML (formatPipelineTree mdParse grammars content)

/-! ## Observation predicates for the claims -/

/-- A copy-button element (class contains code-copy-button). -/
def isButtonElem : Node → Bool
  | .text _ => false
  | .elem _ a _ => strContains (classOfAttrs a) "code-copy-button"

/-- The number of copy-button controls directly attached to a node. -/
def countButtonChildren : Node → Nat
  | .text _ => 0
  | .elem _ _ cs => cs.countP isButtonElem

/-- An eligible code block of the frontend augmenter: a pre element
with a language class holding a language code element. -/
def eligiblePre : Node → Bool
  | .text _ => false
  | .elem t a cs =>
    t == "pre" && strContains (classOfAttrs a) "language-" &&
      anyNodeList isLangCode cs

/-- A pre element. -/
def isPreElem : Node → Bool
  | .text _ => false
  | .elem t _ _ => t == "pre"

/-- A subtree fresh for augmentation: no element carries the
code-copy-button class and none is marked data-copy-added (the state
of a freshly rendered message subtree). -/
def freshForCopy : Node → Bool
  | .text _ => true
  | .elem _ a _ =>
    !strContains (classOfAttrs a) "code-copy-button" &&
      findAttr a "data-copy-added" != some "true"

/-- Every eligible pre of the tree carries exactly one copy control. -/
def eligibleOneButton (n : Node) : Bool :=
  !eligiblePre n || countButtonChildren n == 1

/-- Every pre of the tree carries exactly one copy control. -/
def preOneButton (n : Node) : Bool :=
  !isPreElem n || countButtonChildren n == 1

/-- A token styling span (as produced by the highlighter). -/
def isTokenSpan : Node → Bool
  | .text _ => false
  | .elem t a _ => t == "span" && strContains (classOfAttrs a) "token"

/-- The children of a node are all text nodes (the shape of a fenced
code element as emitted by the markdown converter). -/
def allTextChildren : List Node → Bool
  | [] => true
  | .text _ :: ns => allTextChildren ns
  | .elem _ _ _ :: _ => false

/-- A node carries the given attribute (with any value). -/
def hasAttr (k : String) : Node → Bool
  | .text _ => false
  | .elem _ a _ => (findAttr a k).isSome

/-- Structural induction over nodes and node lists at once. -/
theorem node_rec_pair (P : Node → Prop) (Q : List Node → Prop)
    (htext : ∀ s, P (.text s))
    (helem : ∀ t a cs, Q cs → P (.elem t a cs))
    (hnil : Q [])
    (hcons : ∀ n ns, P n → Q ns → Q (n :: ns)) :
    (∀ n, P n) ∧ (∀ ns, Q ns) :=
  ⟨fun n => Node.rec htext helem hnil hcons n,
   fun ns => Node.rec_1 htext helem hnil hcons ns⟩

/-! ## Helper lemmas -/

/-- Cache lookup of a processed message list under unique ids. -/
theorem lookup_processMessages (fmt : String → Except String String)
    (msgs : List Msg) (hnd : (msgs.map Msg.id).Nodup) (m : Msg)
    (hm : m ∈ msgs) (hrole : m.role = "assistant") :
    lookupCache (processMessages fmt msgs) m.id = some (formatEntry fmt m) := by
  induction msgs with
  | nil => cases hm
  | cons m0 ms ih =>
    simp only [List.map_cons, List.nodup_cons] at hnd
    obtain ⟨hnotin, hnd'⟩ := hnd
    rcases List.mem_cons.mp hm with rfl | hm'
    · simp [processMessages, hrole, lookupCache]
    · have hid : m0.id ≠ m.id := by
        intro h
        exact hnotin (h ▸ List.mem_map_of_mem Msg.id hm')
      by_cases h0 : m0.role = "assistant"
      · have : (m0.id == m.id) = false := by simpa using hid
        simp [processMessages, h0, lookupCache, this] at ih ⊢
        exact ih hnd' hm'
      · simp [processMessages, h0]
        exact ih hnd' hm'

/-- Keys of the processed message record come only from assistant
messages. -/
theorem lookup_processMessages_none (fmt : String → Except String String)
    (msgs : List Msg) (i : String)
    (h : ∀ m ∈ msgs, m.role = "assistant" → m.id ≠ i) :
    lookupCache (processMessages fmt msgs) i = none := by
  induction msgs with
  | nil => simp [processMessages, lookupCache]
  | cons m0 ms ih =>
    have hms : ∀ m ∈ ms, m.role = "assistant" → m.id ≠ i := by
      intro m hm hr
      exact h m (List.mem_cons_of_mem m0 hm) hr
    by_cases h0 : m0.role = "assistant"
    · have hid : (m0.id == i) = false := by
        simpa using h m0 (List.mem_cons_self m0 ms) h0
      simp [processMessages, h0, lookupCache, hid] at ih ⊢
      exact ih hms
    · simp [processMessages, h0]
      exact ih hms

/-! ## C2: a formatting failure is contained to its own message -/

/-- C2: if the markdown/sanitize/highlight step fails for one
assistant message, the cache entry of that message falls back to its
raw content, while every assistant message whose formatting succeeds
gets its formatted string - one message never blocks the others. -/
theorem format_failure_isolated (fmt : String → Except String String)
    (msgs : List Msg) (hnd : (msgs.map Msg.id).Nodup) (m : Msg)
    (hm : m ∈ msgs) (hrole : m.role = "assistant") :
    (∀ e, fmt m.content = .error e →
      lookupCache (processMessages fmt msgs) m.id = some m.content) ∧
    (∀ h, fmt m.content = .ok h →
      lookupCache (processMessages fmt msgs) m.id = some h) := by
  have hl := lookup_processMessages fmt msgs hnd m hm hrole
  constructor
  · intro e he
    rw [hl]
    simp [formatEntry, he]
  · intro s hs
    rw [hl]
    simp [formatEntry, hs]

/-- Witness for C2 at a concrete run: the first assistant message
fails and falls back to its raw content, the second formats. -/
theorem format_failure_isolated_witness :
    lookupCache
      (processMessages
        (fun s => if s == "BOOM" then .error "parse error" else .ok (s ++ "!"))
        [⟨"1", "assistant", "BOOM"⟩, ⟨"2", "assistant", "hi"⟩])
      "1" = some "BOOM" ∧
    lookupCache
      (processMessages
        (fun s => if s == "BOOM" then .error "parse error" else .ok (s ++ "!"))
        [⟨"1", "assistant", "BOOM"⟩, ⟨"2", "assistant", "hi"⟩])
      "2" = some "hi!" :=
  ⟨(format_failure_isolated _ _ (by decide) ⟨"1", "assistant", "BOOM"⟩
      (by decide) rfl).1 "parse error" rfl,
   (format_failure_isolated _ _ (by decide) ⟨"2", "assistant", "hi"⟩
      (by decide) rfl).2 "hi!" rfl⟩

/-! ## C8: non-assistant messages never enter the pipeline -/

/-- C8: a message whose role is not assistant is rendered directly as
its plain content and never receives a formatted-cache entry; only
assistant messages enter the markdown/sanitize/highlight pipeline. -/
theorem user_messages_bypass_pipeline (fmt : String → Except String String)
    (msgs : List Msg) (cache : List (String × String)) (m : Msg)
    (hnd : (msgs.map Msg.id).Nodup) (hm : m ∈ msgs)
    (hrole : m.role ≠ "assistant") :
    renderMessage cache m = .plain m.content ∧
    lookupCache (processMessages fmt msgs) m.id = none := by
  constructor
  · have h : (m.role == "assistant") = false := by simpa using hrole
    simp [renderMessage, h]
  · apply lookup_processMessages_none
    intro m' hm' hr' hid
    have : m' = m := by
      exact List.inj_on_of_nodup_map hnd hm' hm hid
    rw [this] at hr'
    exact hrole hr'

/-- Witness for C8: a user message next to an assistant message is
rendered as plain text and has no cache entry. -/
theorem user_messages_bypass_pipeline_witness :
    renderMessage [("2", "<p>hello</p>")] ⟨"1", "user", "What is ENS?"⟩ =
      .plain "What is ENS?" ∧
    lookupCache
      (processMessages (fun s => .ok s)
        [⟨"1", "user", "What is ENS?"⟩, ⟨"2", "assistant", "hello"⟩])
      "1" = none :=
  user_messages_bypass_pipeline (fun s => .ok s)
    [⟨"1", "user", "What is ENS?"⟩, ⟨"2", "assistant", "hello"⟩]
    [("2", "<p>hello</p>")] ⟨"1", "user", "What is ENS?"⟩
    (by decide) (by decide) (by decide)

/-! ## C10: rendering never waits for formatting -/

/-- C10: an assistant message with no cache entry yet, or whose cached
entry is the empty string (both falsy in JS), is injected as its raw
content - display never blocks on formatting. -/
theorem render_fallback_without_cache (cache : List (String × String))
    (m : Msg) (hrole : m.role = "assistant")
    (hmiss : lookupCache cache m.id = none ∨ lookupCache cache m.id = some "") :
    renderMessage cache m = .html m.content := by
  rcases hmiss with h | h <;> simp [renderMessage, renderAssistantHTML, hrole, h]

/-- Witness for C10 at concrete caches: a missing entry and an
empty-string entry both fall back to the raw content. -/
theorem render_fallback_without_cache_witness :
    renderMessage [("other", "<p>x</p>")] ⟨"a1", "assistant", "raw text"⟩ =
      .html "raw text" ∧
    renderMessage [("a1", "")] ⟨"a1", "assistant", "raw text"⟩ =
      .html "raw text" :=
  ⟨render_fallback_without_cache [("other", "<p>x</p>")]
      ⟨"a1", "assistant", "raw text"⟩ rfl (Or.inl rfl),
   render_fallback_without_cache [("a1", "")]
      ⟨"a1", "assistant", "raw text"⟩ rfl (Or.inr rfl)⟩

/-! ## C7: clipboard failure is contained -/

/-- C7: when the clipboard write rejects, the click handler logs the
error, leaves the icon state unchanged (so the success indicator never
appears) and arms no revert timer; being a total function, no
exception escapes it. -/
theorem copy_click_clipboard_failure
    (clipboardWrite : String → Except String Unit) (codeText : String)
    (st : IconState) (e : String)
    (hw : clipboardWrite (jsTrim codeText) = .error e)
    (hne : jsTrim codeText ≠ "") :
    (clickHandler clipboardWrite codeText st).icons = st ∧
    (clickHandler clipboardWrite codeText st).icons.successHidden =
      st.successHidden ∧
    (clickHandler clipboardWrite codeText st).logs ≠ [] ∧
    (clickHandler clipboardWrite codeText st).timerSet = false := by
  simp [clickHandler, hw, hne]

/-- Witness for C7 at a concrete rejecting clipboard. -/
theorem copy_click_clipboard_failure_witness :
    (clickHandler (fun _ => .error "denied") "const a = 1;"
        ⟨false, true⟩).icons = ⟨false, true⟩ ∧
    (clickHandler (fun _ => .error "denied") "const a = 1;"
        ⟨false, true⟩).icons.successHidden = true ∧
    (clickHandler (fun _ => .error "denied") "const a = 1;"
        ⟨false, true⟩).logs ≠ [] ∧
    (clickHandler (fun _ => .error "denied") "const a = 1;"
        ⟨false, true⟩).timerSet = false :=
  copy_click_clipboard_failure (fun _ => .error "denied") "const a = 1;"
    ⟨false, true⟩ "denied" rfl (by decide)

/-! ## C3: the auto-scroll policy -/

/-- Counterexample to C3 as stated: a user message appended
immediately after another user message is a freshly appended user
message, the viewport is not pinned (500px above a 100px threshold),
yet the effect does not scroll, because the code only compares the
newest role with the role recorded at the previous render. -/
theorem scroll_user_after_user_counterexample :
    freshlyAppendedUserMessage
      [⟨"1", "user", "What is ENS?"⟩]
      [⟨"1", "user", "What is ENS?"⟩, ⟨"2", "user", "ping"⟩] = true ∧
    isAtBottom 0 1000 500 = false ∧
    (scrollEffect (isAtBottom 0 1000 500)
      [⟨"1", "user", "What is ENS?"⟩, ⟨"2", "user", "ping"⟩]
      (lastRoleOf [⟨"1", "user", "What is ENS?"⟩])).1 = false := by
  decide

/-- C3 amended: after a re-render the viewport is scrolled to the
bottom exactly when the last scroll event put it within the fixed
100px threshold of the bottom, or the newest message has role user
and the last message of the previous render did not - a user message
appended directly after another user message does not force a
scroll. -/
theorem scroll_policy_amended (scrollTop scrollHeight clientHeight : Int)
    (msgs : List Msg) (lastRole : Option String) :
    (scrollEffect (isAtBottom scrollTop scrollHeight clientHeight)
        msgs lastRole).1 = true ↔
      (scrollHeight - scrollTop - clientHeight < 100 ∨
        ∃ m, msgs.getLast? = some m ∧ m.role = "user" ∧
          lastRole ≠ some "user") := by
  unfold scrollEffect isNewUserMessage isAtBottom
  cases h : msgs.getLast? with
  | none => simp
  | some m =>
    simp only [Bool.or_eq_true, decide_eq_true_eq, Bool.and_eq_true,
      beq_iff_eq, bne_iff_ne, ne_eq, Option.some.injEq]
    constructor
    · rintro (hpin | ⟨hrole, hne⟩)
      · exact Or.inl hpin
      · exact Or.inr ⟨m, rfl, hrole, by rw [hrole] at hne; simpa using hne⟩
    · rintro (hpin | ⟨m', hm', hrole, hne⟩)
      · exact Or.inl hpin
      · obtain rfl : m = m' := by simpa using hm'
        exact Or.inr ⟨hrole, by rw [hrole]; simpa using hne⟩

/-! ## Tree lemmas -/

/-- allNodesList distributes over append. -/
theorem allNodesList_append (p : Node → Bool) (xs ys : List Node) :
    allNodesList p (xs ++ ys) = (allNodesList p xs && allNodesList p ys) := by
  induction xs with
  | nil => simp [allNodesList]
  | cons x xs ih => simp [allNodesList, ih, Bool.and_assoc]

/-- textNodesList distributes over append. -/
theorem textNodesList_append (xs ys : List Node) :
    textNodesList (xs ++ ys) = textNodesList xs ++ textNodesList ys := by
  induction xs with
  | nil => simp [textNodesList]
  | cons x xs ih => simp [textNodesList, ih]

/-- mapSelectedList is the pointwise map of mapSelected. -/
theorem mapSelectedList_eq_map (sel : Node → Bool) (f : Node → Node)
    (ns : List Node) :
    mapSelectedList sel f ns = ns.map (mapSelected sel f) := by
  induction ns with
  | nil => rfl
  | cons n ns ih => simp [mapSelectedList, ih]

/-- allNodesList as a membership statement. -/
theorem allNodesList_iff (p : Node → Bool) (ns : List Node) :
    allNodesList p ns = true ↔ ∀ n ∈ ns, allNodes p n = true := by
  induction ns with
  | nil => simp [allNodesList]
  | cons n ns ih => simp [allNodesList, ih]

/-- The root of a tree satisfying allNodes satisfies the predicate. -/
theorem allNodes_root (p : Node → Bool) (n : Node)
    (h : allNodes p n = true) : p n = true := by
  cases n with
  | text s => simpa [allNodes] using h
  | elem t a cs => exact (Bool.and_eq_true ..|>.mp (by simpa [allNodes] using h)).1

/-- Replacing the value of a present key makes it findable. -/
theorem findAttr_map_replace (a : List (String × String)) (k v : String)
    (h : a.any (fun p => p.1 == k) = true) :
    findAttr (a.map (fun p => if p.1 == k then (k, v) else p)) k = some v := by
  induction a with
  | nil => simp at h
  | cons p a ih =>
    by_cases hp : (p.1 == k) = true
    · simp [findAttr, List.find?, hp]
    · have hp' : (p.1 == k) = false := by simpa using hp
      simp only [List.any_cons, hp', Bool.false_or] at h
      simp only [List.map_cons, if_neg (by simp [hp'] : ¬(p.1 == k) = true)]
      simp only [findAttr, List.find?, hp'] at ih ⊢
      exact ih h

/-- An appended key-value pair is found when the key was absent. -/
theorem findAttr_append_single (a : List (String × String)) (k v : String)
    (h : a.any (fun p => p.1 == k) = false) :
    findAttr (a ++ [(k, v)]) k = some v := by
  induction a with
  | nil => simp [findAttr, List.find?]
  | cons p a ih =>
    simp only [List.any_cons, Bool.or_eq_false_iff] at h
    obtain ⟨hp, ha⟩ := h
    simp only [List.cons_append, findAttr, List.find?, hp] at ih ⊢
    exact ih ha

/-- setAttribute makes the written value findable under its key. -/
theorem findAttr_setAttrList_self (a : List (String × String)) (k v : String) :
    findAttr (setAttrList a k v) k = some v := by
  unfold setAttrList
  by_cases h : a.any (fun p => p.1 == k) = true
  · rw [if_pos h]
    exact findAttr_map_replace a k v h
  · rw [if_neg h]
    exact findAttr_append_single a k v (Bool.eq_false_iff.mpr h)

/-- Replacing one key leaves the lookup of a different key alone. -/
theorem findAttr_map_replace_other (a : List (String × String)) (k v k' : String)
    (hk : k' ≠ k) :
    findAttr (a.map (fun p => if p.1 == k then (k, v) else p)) k' = findAttr a k' := by
  induction a with
  | nil => rfl
  | cons p a ih =>
    by_cases hp : (p.1 == k) = true
    · have hpk : p.1 = k := by simpa using hp
      have h1 : (k == k') = false := by simpa using (Ne.symm hk)
      have h2 : (p.1 == k') = false := by rw [hpk]; exact h1
      simp only [List.map_cons, if_pos hp, findAttr, List.find?, h1, h2] at ih ⊢
      exact ih
    · have hp' : (p.1 == k) = false := by simpa using hp
      by_cases hq : (p.1 == k') = true
      · simp [findAttr, List.find?, hp', hq]
      · have hq' : (p.1 == k') = false := by simpa using hq
        simp only [List.map_cons, if_neg (by simp [hp'] : ¬(p.1 == k) = true),
          findAttr, List.find?, hq'] at ih ⊢
        exact ih

/-- Appending a pair under one key leaves a different key lookup alone
when that key lookup is decided before the tail. -/
theorem findAttr_append_single_other (a : List (String × String)) (k v k' : String)
    (hk : k' ≠ k) :
    findAttr (a ++ [(k, v)]) k' = findAttr a k' := by
  induction a with
  | nil =>
    have h1 : (k == k') = false := by simpa using (Ne.symm hk)
    simp [findAttr, List.find?, h1]
  | cons p a ih =>
    by_cases hq : (p.1 == k') = true
    · simp [findAttr, List.find?, hq]
    · have hq' : (p.1 == k') = false := by simpa using hq
      simp only [List.cons_append, findAttr, List.find?, hq'] at ih ⊢
      exact ih

/-- setAttribute leaves the lookup of every other key unchanged. -/
theorem findAttr_setAttrList_other (a : List (String × String)) (k v k' : String)
    (hk : k' ≠ k) :
    findAttr (setAttrList a k v) k' = findAttr a k' := by
  unfold setAttrList
  by_cases h : a.any (fun p => p.1 == k) = true
  · rw [if_pos h]
    exact findAttr_map_replace_other a k v k' hk
  · rw [if_neg h]
    exact findAttr_append_single_other a k v k' hk

/-- setAttribute under a key other than class preserves the class. -/
theorem classOfAttrs_setAttrList (a : List (String × String)) (k v : String)
    (hk : "class" ≠ k) :
    classOfAttrs (setAttrList a k v) = classOfAttrs a := by
  unfold classOfAttrs
  rw [findAttr_setAttrList_other a k v "class" hk]

/-- A pass that finds nothing to select leaves the tree unchanged. -/
theorem mapSelected_noop (sel : Node → Bool) (f : Node → Node) :
    (∀ n, allNodes (fun m => !sel m) n = true → mapSelected sel f n = n) ∧
    (∀ ns, allNodesList (fun m => !sel m) ns = true →
      mapSelectedList sel f ns = ns) := by
  refine node_rec_pair _ _ ?_ ?_ ?_ ?_
  · intro s _
    rfl
  · intro t a cs ih h
    simp only [allNodes, Bool.and_eq_true] at h
    obtain ⟨h1, h2⟩ := h
    have hsel : sel (Node.elem t a cs) = false := by simpa using h1
    simp [mapSelected, ih h2, hsel]
  · intro _
    rfl
  · intro n ns ihn ihns h
    simp only [allNodesList, Bool.and_eq_true] at h
    simp [mapSelectedList, ihn h.1, ihns h.2]

/-! ## Copy-button augmenter lemmas -/

/-- A pre processed by the frontend forEach body is marked, hence no
longer matched by the selector. -/
theorem selLangPre_processPre (n : Node) : selLangPre (processPre n) = false := by
  cases n with
  | text s => rfl
  | elem t a cs =>
    have hm : findAttr (setAttrList (setAttrList a "data-copy-added" "true")
        "style" "position: relative") "data-copy-added" = some "true" := by
      rw [findAttr_setAttrList_other _ _ _ _ (by decide)]
      exact findAttr_setAttrList_self a _ _
    by_cases h : anyNodeList isLangCode cs = true
    · simp [processPre, h, selLangPre, hm]
    · simp [processPre, h, selLangPre, hm]

/-- A pre processed by the website forEach body is marked, hence no
longer matched by the website selector. -/
theorem selSitePre_siteProcessPre (n : Node) : selSitePre (siteProcessPre n) = false := by
  cases n with
  | text s => rfl
  | elem t a cs =>
    have hm : findAttr (setAttrList (setAttrList a "data-copy-added" "true")
        "style" "position: relative") "data-copy-added" = some "true" := by
      rw [findAttr_setAttrList_other _ _ _ _ (by decide)]
      exact findAttr_setAttrList_self a _ _
    simp [siteProcessPre, selSitePre, hm]

/-- The created copy button is never matched by the frontend selector
(it is not a pre). -/
theorem copyButton_unmatched :
    allNodes (fun m => !selLangPre m) copyButtonNode = true := by decide

/-- The created website copy button is never matched by the website
selector. -/
theorem siteCopyButton_unmatched :
    allNodes (fun m => !selSitePre m) siteCopyButtonNode = true := by decide

/-- After one frontend pass every language pre is marked: no node of
the output is still matched by the selector. -/
theorem addCopyButtons_marks :
    (∀ n, allNodes (fun m => !selLangPre m)
      (mapSelected selLangPre processPre n) = true) ∧
    (∀ ns, allNodesList (fun m => !selLangPre m)
      (mapSelectedList selLangPre processPre ns) = true) := by
  refine node_rec_pair _ _ ?_ ?_ ?_ ?_
  · intro s
    rfl
  · intro t a cs ih
    simp only [mapSelected]
    by_cases hsel : selLangPre (Node.elem t a
        (mapSelectedList selLangPre processPre cs)) = true
    · rw [if_pos hsel]
      have hroot := selLangPre_processPre
        (Node.elem t a (mapSelectedList selLangPre processPre cs))
      by_cases hany : anyNodeList isLangCode
          (mapSelectedList selLangPre processPre cs) = true
      · simp only [processPre, if_pos hany] at hroot ⊢
        simp [allNodes, allNodesList_append, ih, hroot, allNodesList]
        exact copyButton_unmatched
      · simp only [processPre, if_neg hany] at hroot ⊢
        simp [allNodes, ih, hroot]
    · rw [if_neg hsel]
      have hroot : selLangPre (Node.elem t a
          (mapSelectedList selLangPre processPre cs)) = false := by
        simpa using hsel
      simp [allNodes, ih, hroot]
  · rfl
  · intro n ns ihn ihns
    simp [allNodesList, ihn, ihns]

/-- One frontend pass of addCopyButtons is idempotent: the second pass
finds every language pre already marked and changes nothing. -/
theorem addCopyButtonsPass_idem (ns : List Node) :
    addCopyButtonsPass (addCopyButtonsPass ns) = addCopyButtonsPass ns :=
  (mapSelected_noop selLangPre processPre).2 _ (addCopyButtons_marks.2 ns)

/-- processPre and the frontend pass preserve the tag and class of a
node, so button-ness of a direct child is untouched by the pass. -/
theorem isButtonElem_mapSelected_processPre (c : Node) :
    isButtonElem (mapSelected selLangPre processPre c) = isButtonElem c := by
  cases c with
  | text s => rfl
  | elem t a cs =>
    simp only [mapSelected]
    by_cases hsel : selLangPre (Node.elem t a
        (mapSelectedList selLangPre processPre cs)) = true
    · rw [if_pos hsel]
      have hcls : classOfAttrs (setAttrList (setAttrList a "data-copy-added" "true")
          "style" "position: relative") = classOfAttrs a := by
        rw [classOfAttrs_setAttrList _ _ _ (by decide),
          classOfAttrs_setAttrList _ _ _ (by decide)]
      by_cases hany : anyNodeList isLangCode
          (mapSelectedList selLangPre processPre cs) = true
      · simp only [processPre, if_pos hany]
        simp [isButtonElem, hcls]
      · simp only [processPre, if_neg hany]
        simp [isButtonElem, hcls]
    · rw [if_neg hsel]
      rfl

/-- Same for the website pass. -/
theorem isButtonElem_mapSelected_siteProcessPre (c : Node) :
    isButtonElem (mapSelected selSitePre siteProcessPre c) = isButtonElem c := by
  cases c with
  | text s => rfl
  | elem t a cs =>
    simp only [mapSelected]
    by_cases hsel : selSitePre (Node.elem t a
        (mapSelectedList selSitePre siteProcessPre cs)) = true
    · rw [if_pos hsel]
      have hcls : classOfAttrs (setAttrList (setAttrList a "data-copy-added" "true")
          "style" "position: relative") = classOfAttrs a := by
        rw [classOfAttrs_setAttrList _ _ _ (by decide),
          classOfAttrs_setAttrList _ _ _ (by decide)]
      simp [siteProcessPre, isButtonElem, hcls]
    · rw [if_neg hsel]
      rfl

/-- In a fresh subtree no direct child is a copy button. -/
theorem countP_isButtonElem_of_fresh (cs : List Node)
    (h : allNodesList freshForCopy cs = true) :
    cs.countP isButtonElem = 0 := by
  rw [List.countP_eq_zero]
  intro c hc
  have hfc : freshForCopy c = true :=
    allNodes_root _ _ ((allNodesList_iff _ _).mp h c hc)
  cases c with
  | text s => simp [isButtonElem]
  | elem t a cs2 =>
    simp only [freshForCopy, Bool.and_eq_true] at hfc
    simp only [isButtonElem]
    simpa using hfc.1

/-- The frontend pass does not change the number of button children of
a node list. -/
theorem countP_isButtonElem_mapSelectedList (cs : List Node) :
    (mapSelectedList selLangPre processPre cs).countP isButtonElem =
      cs.countP isButtonElem := by
  induction cs with
  | nil => rfl
  | cons c cs ih =>
    simp [mapSelectedList, List.countP_cons, ih,
      isButtonElem_mapSelected_processPre c]

/-- Website version of the previous lemma. -/
theorem countP_isButtonElem_siteMapSelectedList (cs : List Node) :
    (mapSelectedList selSitePre siteProcessPre cs).countP isButtonElem =
      cs.countP isButtonElem := by
  induction cs with
  | nil => rfl
  | cons c cs ih =>
    simp [mapSelectedList, List.countP_cons, ih,
      isButtonElem_mapSelected_siteProcessPre c]


/-- The copy button itself satisfies the one-button-per-eligible-pre
predicate everywhere (it contains no pre). -/
theorem copyButton_eligibleOneButton :
    allNodes eligibleOneButton copyButtonNode = true := by decide

/-- The website copy button satisfies the one-button-per-pre predicate
everywhere. -/
theorem siteButton_preOneButton :
    allNodes preOneButton siteCopyButtonNode = true := by decide

/-- After one website pass every pre is marked. -/
theorem siteAugment_marks :
    (∀ n, allNodes (fun m => !selSitePre m)
      (mapSelected selSitePre siteProcessPre n) = true) ∧
    (∀ ns, allNodesList (fun m => !selSitePre m)
      (mapSelectedList selSitePre siteProcessPre ns) = true) := by
  refine node_rec_pair _ _ ?_ ?_ ?_ ?_
  · intro s
    rfl
  · intro t a cs ih
    simp only [mapSelected]
    by_cases hsel : selSitePre (Node.elem t a
        (mapSelectedList selSitePre siteProcessPre cs)) = true
    · rw [if_pos hsel]
      have hroot := selSitePre_siteProcessPre
        (Node.elem t a (mapSelectedList selSitePre siteProcessPre cs))
      simp only [siteProcessPre] at hroot ⊢
      simp [allNodes, allNodesList_append, ih, hroot, allNodesList]
      exact siteCopyButton_unmatched
    · rw [if_neg hsel]
      have hroot : selSitePre (Node.elem t a
          (mapSelectedList selSitePre siteProcessPre cs)) = false := by
        simpa using hsel
      simp [allNodes, ih, hroot]
  · rfl
  · intro n ns ihn ihns
    simp [allNodesList, ihn, ihns]

/-- One website pass is idempotent. -/
theorem siteAugmentPass_idem (ns : List Node) :
    siteAugmentPass (siteAugmentPass ns) = siteAugmentPass ns :=
  (mapSelected_noop selSitePre siteProcessPre).2 _ (siteAugment_marks.2 ns)

/-- On a fresh subtree, one frontend pass leaves every eligible pre
with exactly one copy control. -/
theorem addCopyButtons_one_button :
    (∀ n, allNodes freshForCopy n = true →
      allNodes eligibleOneButton (mapSelected selLangPre processPre n) = true) ∧
    (∀ ns, allNodesList freshForCopy ns = true →
      allNodesList eligibleOneButton (mapSelectedList selLangPre processPre ns) = true) := by
  refine node_rec_pair _ _ ?_ ?_ ?_ ?_
  · intro s _
    rfl
  · intro t a cs ih h
    simp only [allNodes, Bool.and_eq_true] at h
    obtain ⟨hroot, hcs⟩ := h
    have ihcs := ih hcs
    simp only [mapSelected]
    by_cases hsel : selLangPre (Node.elem t a
        (mapSelectedList selLangPre processPre cs)) = true
    · rw [if_pos hsel]
      by_cases hany : anyNodeList isLangCode
          (mapSelectedList selLangPre processPre cs) = true
      · simp only [processPre, if_pos hany]
        have hcount : (mapSelectedList selLangPre processPre cs ++
            [copyButtonNode]).countP isButtonElem = 1 := by
          rw [List.countP_append, countP_isButtonElem_mapSelectedList,
            countP_isButtonElem_of_fresh cs hcs]
          decide
        simp [allNodes, allNodesList_append, allNodesList, ihcs,
          eligibleOneButton, countButtonChildren, hcount]
        exact copyButton_eligibleOneButton
      · simp only [processPre, if_neg hany]
        have hany' : anyNodeList isLangCode
            (mapSelectedList selLangPre processPre cs) = false := by
          simpa using hany
        simp [allNodes, ihcs, eligibleOneButton, eligiblePre, hany']
    · rw [if_neg hsel]
      have hfr : freshForCopy (Node.elem t a cs) = true := hroot
      simp only [freshForCopy, Bool.and_eq_true] at hfr
      have hsel' : selLangPre (Node.elem t a
          (mapSelectedList selLangPre processPre cs)) = false := by
        simpa using hsel
      simp only [selLangPre] at hsel'
      rw [hfr.2, Bool.and_true] at hsel'
      simp [allNodes, ihcs, eligibleOneButton, eligiblePre, hsel']
  · intro _
    rfl
  · intro n ns ihn ihns h
    simp only [allNodesList, Bool.and_eq_true] at h
    simp [allNodesList, ihn h.1, ihns h.2]

/-- On a fresh subtree, one website pass leaves every pre - language
class or not - with exactly one copy control. -/
theorem siteAugment_one_button :
    (∀ n, allNodes freshForCopy n = true →
      allNodes preOneButton (mapSelected selSitePre siteProcessPre n) = true) ∧
    (∀ ns, allNodesList freshForCopy ns = true →
      allNodesList preOneButton (mapSelectedList selSitePre siteProcessPre ns) = true) := by
  refine node_rec_pair _ _ ?_ ?_ ?_ ?_
  · intro s _
    rfl
  · intro t a cs ih h
    simp only [allNodes, Bool.and_eq_true] at h
    obtain ⟨hroot, hcs⟩ := h
    have ihcs := ih hcs
    simp only [mapSelected]
    by_cases hsel : selSitePre (Node.elem t a
        (mapSelectedList selSitePre siteProcessPre cs)) = true
    · rw [if_pos hsel]
      simp only [siteProcessPre]
      have hcount : (mapSelectedList selSitePre siteProcessPre cs ++
          [siteCopyButtonNode]).countP isButtonElem = 1 := by
        rw [List.countP_append, countP_isButtonElem_siteMapSelectedList,
          countP_isButtonElem_of_fresh cs hcs]
        decide
      simp [allNodes, allNodesList_append, allNodesList, ihcs,
        preOneButton, countButtonChildren, hcount]
      exact siteButton_preOneButton
    · rw [if_neg hsel]
      have hfr : freshForCopy (Node.elem t a cs) = true := hroot
      simp only [freshForCopy, Bool.and_eq_true] at hfr
      have hsel' : selSitePre (Node.elem t a
          (mapSelectedList selSitePre siteProcessPre cs)) = false := by
        simpa using hsel
      simp only [selSitePre] at hsel'
      rw [hfr.2, Bool.and_true] at hsel'
      simp [allNodes, ihcs, preOneButton, isPreElem, hsel']
  · intro _
    rfl
  · intro n ns ihn ihns h
    simp only [allNodesList, Bool.and_eq_true] at h
    simp [allNodesList, ihn h.1, ihns h.2]


/-! ## C4: the copy-button augmenter is idempotent -/

/-- C4: applied any number of times to the same fresh rendered
subtree, the frontend copy-button augmenter marks every selected pre
with the data-copy-added attribute, every later pass skips elements so
marked (further passes change nothing), and exactly one copy control
is attached per eligible code block. -/
theorem addCopyButtons_idempotent_one_control (ns : List Node)
    (hfresh : allNodesList freshForCopy ns = true) (k : Nat) :
    addCopyButtonsPass^[k + 1] ns = addCopyButtonsPass ns ∧
    allNodesList (fun m => !selLangPre m) (addCopyButtonsPass ns) = true ∧
    allNodesList eligibleOneButton (addCopyButtonsPass ns) = true := by
  refine ⟨?_, addCopyButtons_marks.2 ns, addCopyButtons_one_button.2 ns hfresh⟩
  rw [Function.iterate_succ_apply]
  exact Function.iterate_fixed (addCopyButtonsPass_idem ns) k

/-- Witness for C4 on a concrete rendered code block: two passes equal
one pass, every language pre is marked, the block has exactly one
control. -/
theorem addCopyButtons_idempotent_one_control_witness :
    addCopyButtonsPass^[1 + 1]
      [Node.elem "pre" [("class", "language-js")]
        [Node.elem "code" [("class", "language-js")] [Node.text "let x = 1;"]]] =
      addCopyButtonsPass
        [Node.elem "pre" [("class", "language-js")]
          [Node.elem "code" [("class", "language-js")] [Node.text "let x = 1;"]]] ∧
    allNodesList (fun m => !selLangPre m)
      (addCopyButtonsPass
        [Node.elem "pre" [("class", "language-js")]
          [Node.elem "code" [("class", "language-js")] [Node.text "let x = 1;"]]]) = true ∧
    allNodesList eligibleOneButton
      (addCopyButtonsPass
        [Node.elem "pre" [("class", "language-js")]
          [Node.elem "code" [("class", "language-js")] [Node.text "let x = 1;"]]]) = true :=
  addCopyButtons_idempotent_one_control
    [Node.elem "pre" [("class", "language-js")]
      [Node.elem "code" [("class", "language-js")] [Node.text "let x = 1;"]]]
    (by decide) 1

/-! ## C9: which blocks the augmenter reaches -/

/-- Counterexample to C9 as stated: the frontend augmenter selector
(line 128) matches only pre elements whose class contains language-,
so a fenced block whose pre carries no language class is left with no
marker attribute and no control by the frontend pass. -/
theorem augment_no_lang_pre_counterexample :
    addCopyButtonsPass
      [Node.elem "pre" [] [Node.elem "code" [] [Node.text "plain"]]] =
      [Node.elem "pre" [] [Node.elem "code" [] [Node.text "plain"]]] ∧
    hasAttr "data-copy-added"
      (Node.elem "pre" [] [Node.elem "code" [] [Node.text "plain"]]) = false ∧
    countButtonChildren
      (Node.elem "pre" [] [Node.elem "code" [] [Node.text "plain"]]) = 0 :=
  ⟨rfl, rfl, rfl⟩

/-- C9 amended: the website augmenter does give every not-yet-marked
pre - with or without a language class - the marker attribute and
exactly one copy control; the frontend augmenter reaches only pre
elements carrying a language class. -/
theorem site_augment_every_pre (ns : List Node)
    (hfresh : allNodesList freshForCopy ns = true) :
    allNodesList (fun m => !selSitePre m) (siteAugmentPass ns) = true ∧
    allNodesList preOneButton (siteAugmentPass ns) = true :=
  ⟨siteAugment_marks.2 ns, siteAugment_one_button.2 ns hfresh⟩

/-- Witness for the amended C9 on a pre without a language class: the
website pass marks it and attaches exactly one control. -/
theorem site_augment_every_pre_witness :
    allNodesList (fun m => !selSitePre m)
      (siteAugmentPass
        [Node.elem "pre" [] [Node.elem "code" [] [Node.text "plain text"]]]) = true ∧
    allNodesList preOneButton
      (siteAugmentPass
        [Node.elem "pre" [] [Node.elem "code" [] [Node.text "plain text"]]]) = true :=
  site_augment_every_pre
    [Node.elem "pre" [] [Node.elem "code" [] [Node.text "plain text"]]]
    (by decide)


/-! ## Highlighter lemmas -/

/-- The tokenizer preserves the text content exactly: concatenating
the text of the produced token spans and text nodes returns the
input. -/
theorem textContentList_tokenizeChars (l : List Char) :
    textContentList (tokenizeChars l) = String.mk l := by
  induction l with
  | nil => rfl
  | cons c l ih =>
    by_cases h : isWordChar c = true
    · simp only [tokenizeChars, if_pos h, textContentList, textContent]
      rw [ih]
      apply String.ext
      simp [String.data_append]
    · simp only [tokenizeChars, if_neg h, textContentList, textContent]
      rw [ih]
      apply String.ext
      simp [String.data_append]

/-- Reading the text content back out of a tokenization returns the
tokenized string. -/
theorem textContentList_prismTokenize (s : String) :
    textContentList (prismTokenize s) = s := by
  rw [prismTokenize, textContentList_tokenizeChars]
  cases s
  rfl

/-- The highlight pass is idempotent at every node and flag: a second
pass re-tokenizes the preserved text content and reproduces the same
tree. -/
theorem highlight_pass_idem_pair (g : List String) :
    (∀ n, ∀ b, highlightNode g prismHighlightElement b
        (highlightNode g prismHighlightElement b n) =
      highlightNode g prismHighlightElement b n) ∧
    (∀ ns, ∀ b, highlightList g prismHighlightElement b
        (highlightList g prismHighlightElement b ns) =
      highlightList g prismHighlightElement b ns) := by
  refine node_rec_pair _ _ ?_ ?_ ?_ ?_
  · intro s b
    rfl
  · intro t a cs ih b
    by_cases hm : (b && t == "code" &&
        strContains (classOfAttrs a) "language-") = true
    · cases hl : extractLang (classOfAttrs a) with
      | none => simp [highlightNode, hm, hl]
      | some lang =>
        by_cases hg : lang ∈ g
        · simp [highlightNode, hm, hl, hg, prismHighlightElement,
            textContentList_prismTokenize]
        · simp [highlightNode, hm, hl, hg]
    · simp [highlightNode, hm, ih (b || t == "pre")]
  · intro b
    rfl
  · intro n ns ihn ihns b
    simp [highlightList, ihn b, ihns b]

/-! ## C5: highlighter idempotence and its mechanism -/

/-- Counterexample to the mechanism stated in C5: a highlight pass on
a concrete fenced block sets no marker attribute on any node (in
particular not the data-prism-highlighted attribute the sanitizer
allowlists but nothing ever sets) - the second pass re-processes the
block rather than skipping a marked node, and reproduces the same
tree. -/
theorem highlight_no_marker_counterexample :
    highlightList ["javascript"] prismHighlightElement false
      [Node.elem "pre" [("class", "language-javascript")]
        [Node.elem "code" [("class", "language-javascript")]
          [Node.text "let x"]]] =
      [Node.elem "pre" [("class", "language-javascript")]
        [Node.elem "code" [("class", "language-javascript")]
          [Node.elem "span" [("class", "token")] [Node.text "l"],
           Node.elem "span" [("class", "token")] [Node.text "e"],
           Node.elem "span" [("class", "token")] [Node.text "t"],
           Node.text " ",
           Node.elem "span" [("class", "token")] [Node.text "x"]]]] ∧
    allNodesList (fun n => !hasAttr "data-prism-highlighted" n)
      (highlightList ["javascript"] prismHighlightElement false
        [Node.elem "pre" [("class", "language-javascript")]
          [Node.elem "code" [("class", "language-javascript")]
            [Node.text "let x"]]]) = true :=
  ⟨rfl, by decide⟩

/-- C5 amended: running the highlighter a second time over markup it
has already highlighted yields the identical tree and byte-identical
serialized output; this holds because token spans preserve the text
content and the pass re-tokenizes that text, not because processed
nodes are marked and skipped. -/
theorem highlight_idempotent (g : List String) (ns : List Node) :
    highlightList g prismHighlightElement false
        (highlightList g prismHighlightElement false ns) =
      highlightList g prismHighlightElement false ns ∧
    innerHTML (highlightList g prismHighlightElement false
        (highlightList g prismHighlightElement false ns)) =
      innerHTML (highlightList g prismHighlightElement false ns) :=
  ⟨(highlight_pass_idem_pair g).2 ns false,
   congrArg innerHTML ((highlight_pass_idem_pair g).2 ns false)⟩

/-! ## C6: grammar dispatch of the highlighter -/

/-- A tokenization of text holding at least one word character
contains a token styling span. -/
theorem tokenizeChars_has_token_span (l : List Char)
    (h : ∃ c ∈ l, isWordChar c = true) :
    anyNodeList isTokenSpan (tokenizeChars l) = true := by
  induction l with
  | nil => simp at h
  | cons c l ih =>
    by_cases hc : isWordChar c = true
    · simp only [tokenizeChars, if_pos hc, anyNodeList, anyNode,
        Bool.or_eq_true]
      exact Or.inl (Or.inl rfl)
    · obtain ⟨c2, hc2, hw⟩ := h
      rcases List.mem_cons.mp hc2 with rfl | hmem
      · exact absurd hw hc
      · simp only [tokenizeChars, if_neg hc, anyNodeList, anyNode,
          Bool.or_eq_true]
        exact Or.inr (ih ⟨c2, hmem, hw⟩)

/-- C6: for a fenced code element declaring language lang, a loaded
grammar produces the Prism tokenization of the code text (containing
token styling spans whenever the text has a word character); a
missing grammar leaves the element exactly as it was, whatever Prism
would do; and a throwing Prism call is caught, also leaving the
element unchanged - no exception reaches the caller. -/
theorem fenced_block_grammar_dispatch (grammars : List String)
    (a : List (String × String)) (cs : List Node) (lang : String)
    (hcls : extractLang (classOfAttrs a) = some lang)
    (hsub : strContains (classOfAttrs a) "language-" = true) :
    (grammars.contains lang = true →
      highlightNode grammars prismHighlightElement true (.elem "code" a cs) =
        .elem "code" a (prismTokenize (textContentList cs)) ∧
      ((∃ c ∈ (textContentList cs).toList, isWordChar c = true) →
        anyNodeList isTokenSpan (prismTokenize (textContentList cs)) = true)) ∧
    (grammars.contains lang = false →
      ∀ hl : Node → Except String Node,
        highlightNode grammars hl true (.elem "code" a cs) =
          .elem "code" a cs) ∧
    (∀ hl : Node → Except String Node, ∀ e : String,
      hl (.elem "code" a cs) = .error e →
        highlightNode grammars hl true (.elem "code" a cs) =
          .elem "code" a cs) := by
  refine ⟨?_, ?_, ?_⟩
  · intro hg
    have hg2 : lang ∈ grammars := by simpa using hg
    refine ⟨?_, ?_⟩
    · simp [highlightNode, hsub, hcls, hg2, prismHighlightElement]
    · intro h
      exact tokenizeChars_has_token_span _ h
  · intro hg hl
    have hg2 : lang ∉ grammars := by simpa using hg
    simp [highlightNode, hsub, hcls, hg2]
  · intro hl e he
    by_cases hg2 : lang ∈ grammars
    · simp [highlightNode, hsub, hcls, hg2, he]
    · simp [highlightNode, hsub, hcls, hg2]

/-- Witness for C6: a solidity block with the grammar loaded is
tokenized with a styling span; a foobar block is passed through
untouched; a throwing Prism call leaves the block untouched. -/
theorem fenced_block_grammar_dispatch_witness :
    highlightNode ["solidity"] prismHighlightElement true
        (.elem "code" [("class", "language-solidity")] [Node.text "pragma"]) =
      .elem "code" [("class", "language-solidity")]
        (prismTokenize (textContentList [Node.text "pragma"])) ∧
    anyNodeList isTokenSpan
      (prismTokenize (textContentList [Node.text "pragma"])) = true ∧
    highlightNode ["solidity"] prismHighlightElement true
        (.elem "code" [("class", "language-foobar")] [Node.text "plain"]) =
      .elem "code" [("class", "language-foobar")] [Node.text "plain"] ∧
    highlightNode ["solidity"] (fun _ => .error "Prism crash") true
        (.elem "code" [("class", "language-solidity")] [Node.text "pragma"]) =
      .elem "code" [("class", "language-solidity")] [Node.text "pragma"] := by
  refine ⟨?_, ?_, ?_, ?_⟩
  · exact ((fenced_block_grammar_dispatch ["solidity"]
      [("class", "language-solidity")] [Node.text "pragma"] "solidity" rfl
      (by decide)).1 rfl).1
  · exact ((fenced_block_grammar_dispatch ["solidity"]
      [("class", "language-solidity")] [Node.text "pragma"] "solidity" rfl
      (by decide)).1 rfl).2 (by decide)
  · exact (fenced_block_grammar_dispatch ["solidity"]
      [("class", "language-foobar")] [Node.text "plain"] "foobar" rfl
      (by decide)).2.1 (by decide) prismHighlightElement
  · exact (fenced_block_grammar_dispatch ["solidity"]
      [("class", "language-solidity")] [Node.text "pragma"] "solidity" rfl
      (by decide)).2.2 (fun _ => .error "Prism crash") "Prism crash" rfl


/-! ## Sanitizer lemmas and C1 -/

/-- The sanitizer output carries only allowlisted tags and attribute
keys. -/
theorem sanitize_allowed :
    (∀ n, allNodesList nodeAllowed (sanitizeNode n) = true) ∧
    (∀ ns, allNodesList nodeAllowed (sanitizeList ns) = true) := by
  refine node_rec_pair _ _ ?_ ?_ ?_ ?_
  · intro s
    rfl
  · intro t a cs ih
    by_cases ht : allowedTags.contains t = true
    · have hattrs : (a.filter (fun p => allowedAttrs.contains p.1)).all
          (fun p => allowedAttrs.contains p.1) = true := by
        rw [List.all_eq_true]
        intro p hp
        exact (List.mem_filter.mp hp).2
      simp only [sanitizeNode, if_pos ht, allNodesList, allNodes,
        nodeAllowed, Bool.and_eq_true, Bool.and_true]
      exact ⟨⟨ht, hattrs⟩, ih⟩
    · by_cases hf : forbidContents.contains t = true
      · simp only [sanitizeNode, if_neg ht, if_pos hf]
        rfl
      · simp only [sanitizeNode, if_neg ht, if_neg hf]
        exact ih
  · rfl
  · intro n ns ihn ihns
    simp only [sanitizeList, allNodesList_append, Bool.and_eq_true]
    exact ⟨ihn, ihns⟩

/-- Tokenizer output is allowlisted (token spans with a class). -/
theorem tokenize_allowed (l : List Char) :
    allNodesList nodeAllowed (tokenizeChars l) = true := by
  induction l with
  | nil => rfl
  | cons c l ih =>
    by_cases hc : isWordChar c = true
    · simp only [tokenizeChars, if_pos hc, allNodesList, Bool.and_eq_true]
      exact ⟨rfl, ih⟩
    · simp only [tokenizeChars, if_neg hc, allNodesList, Bool.and_eq_true]
      exact ⟨rfl, ih⟩

/-- The highlight pass preserves allowlistedness. -/
theorem highlight_preserves_allowed (g : List String) :
    (∀ n, ∀ b, allNodes nodeAllowed n = true →
      allNodes nodeAllowed (highlightNode g prismHighlightElement b n) = true) ∧
    (∀ ns, ∀ b, allNodesList nodeAllowed ns = true →
      allNodesList nodeAllowed (highlightList g prismHighlightElement b ns) = true) := by
  refine node_rec_pair _ _ ?_ ?_ ?_ ?_
  · intro s b h
    exact h
  · intro t a cs ih b h
    simp only [allNodes, Bool.and_eq_true] at h
    obtain ⟨hroot, hcs⟩ := h
    by_cases hm : (b && t == "code" &&
        strContains (classOfAttrs a) "language-") = true
    · cases hl : extractLang (classOfAttrs a) with
      | none =>
        simp only [highlightNode, if_pos hm, hl]
        simp [allNodes, hroot, hcs]
      | some lang =>
        by_cases hg : lang ∈ g
        · simp only [highlightNode, if_pos hm, hl]
          simp only [prismHighlightElement]
          simp [hg, allNodes, prismTokenize, tokenize_allowed]
          exact hroot
        · simp only [highlightNode, if_pos hm, hl]
          simp [hg, allNodes, hroot, hcs]
    · simp only [highlightNode, if_neg hm]
      simp only [allNodes, Bool.and_eq_true]
      exact ⟨hroot, ih (b || t == "pre") hcs⟩
  · intro b h
    exact h
  · intro n ns ihn ihns b h
    simp only [allNodesList, Bool.and_eq_true] at h
    simp only [highlightList, allNodesList, Bool.and_eq_true]
    exact ⟨ihn b h.1, ihns b h.2⟩

/-- setAttribute with an allowlisted key preserves attribute-key
allowlistedness. -/
theorem attrsAllowed_setAttrList (a : List (String × String)) (k v : String)
    (ha : a.all (fun p => allowedAttrs.contains p.1) = true)
    (hk : allowedAttrs.contains k = true) :
    (setAttrList a k v).all (fun p => allowedAttrs.contains p.1) = true := by
  unfold setAttrList
  rw [List.all_eq_true] at ha
  by_cases h : a.any (fun p => p.1 == k) = true
  · rw [if_pos h, List.all_eq_true]
    intro p hp
    obtain ⟨q, hq, hqe⟩ := List.mem_map.mp hp
    by_cases hqk : (q.1 == k) = true
    · rw [if_pos hqk] at hqe
      rw [← hqe]
      exact hk
    · rw [if_neg hqk] at hqe
      rw [← hqe]
      exact ha q hq
  · rw [if_neg h, List.all_eq_true]
    intro p hp
    rcases List.mem_append.mp hp with hp1 | hp2
    · exact ha p hp1
    · obtain rfl : p = (k, v) := by simpa using hp2
      exact hk

/-- The link pass preserves allowlistedness (target and rel are both
allowlisted attribute keys). -/
theorem linkPass_preserves_allowed :
    (∀ n, allNodes nodeAllowed n = true →
      allNodes nodeAllowed (mapSelected isAnchor setLinkAttrs n) = true) ∧
    (∀ ns, allNodesList nodeAllowed ns = true →
      allNodesList nodeAllowed (mapSelectedList isAnchor setLinkAttrs ns) = true) := by
  refine node_rec_pair _ _ ?_ ?_ ?_ ?_
  · intro s h
    exact h
  · intro t a cs ih h
    simp only [allNodes, Bool.and_eq_true] at h
    obtain ⟨hroot, hcs⟩ := h
    simp only [mapSelected]
    by_cases hsel : isAnchor (Node.elem t a
        (mapSelectedList isAnchor setLinkAttrs cs)) = true
    · rw [if_pos hsel]
      simp only [setLinkAttrs, Node.setAttr]
      simp only [nodeAllowed, Bool.and_eq_true] at hroot
      have ha2 := attrsAllowed_setAttrList _ "rel" "noopener noreferrer"
        (attrsAllowed_setAttrList _ "target" "_blank" hroot.2 (by decide))
        (by decide)
      simp only [allNodes, nodeAllowed, Bool.and_eq_true]
      exact ⟨⟨hroot.1, ha2⟩, ih hcs⟩
    · rw [if_neg hsel]
      simp only [allNodes, Bool.and_eq_true]
      exact ⟨hroot, ih hcs⟩
  · intro h
    exact h
  · intro n ns ihn ihns h
    simp only [allNodesList, Bool.and_eq_true] at h
    simp only [mapSelectedList, allNodesList, Bool.and_eq_true]
    exact ⟨ihn h.1, ihns h.2⟩

/-- The sanitizer drops, never escapes: its output text nodes are a
sublist of its input text nodes, so no removed tag reappears as
text. -/
theorem sanitize_text_sublist :
    (∀ n, List.Sublist (textNodesList (sanitizeNode n)) (textNodes n)) ∧
    (∀ ns, List.Sublist (textNodesList (sanitizeList ns))
      (textNodesList ns)) := by
  refine node_rec_pair _ _ ?_ ?_ ?_ ?_
  · intro s
    exact List.Sublist.refl _
  · intro t a cs ih
    by_cases ht : allowedTags.contains t = true
    · simp only [sanitizeNode, if_pos ht, textNodesList, textNodes,
        List.append_nil]
      exact ih
    · by_cases hf : forbidContents.contains t = true
      · simp only [sanitizeNode, if_neg ht, if_pos hf, textNodesList,
          textNodes]
        exact List.nil_sublist _
      · simp only [sanitizeNode, if_neg ht, if_neg hf, textNodes]
        exact ih
  · exact List.Sublist.refl _
  · intro n ns ihn ihns
    simp only [sanitizeList, textNodesList_append, textNodesList]
    exact List.Sublist.append ihn ihns

/-- C1: the formatting pipeline emits only allowlisted tags and
attribute keys, for every assistant content and every markdown
conversion result; and the sanitizer drops disallowed markup rather
than escaping and keeping it - the text nodes of its output form a
sublist of the text nodes of its input. -/
theorem sanitize_allowlist (mdParse : String → List Node)
    (grammars : List String) (content : String) (ns : List Node) :
    allNodesList nodeAllowed (formatPipelineTree mdParse grammars content) = true ∧
    List.Sublist (textNodesList (sanitizeList ns)) (textNodesList ns) := by
  constructor
  · unfold formatPipelineTree linkPassList
    apply linkPass_preserves_allowed.2
    apply (highlight_preserves_allowed grammars).2 _ false
    exact sanitize_allowed.2 _
  · exact sanitize_text_sublist.2 ns


end EnsRag
